import Mathlib

/-!
Shallow embedding of the morphius file watcher (`src/watcher.js`) and of the
prefix-extraction helper exercised by its test script, together with proofs of
the behavioural properties claimed for the batch-assembly pipeline.

JavaScript strings are modelled as lists of characters, machine numbers as
exact integers / scaled decimals, the filesystem and the external collaborators
(report sync, AI summariser) as explicit parameters, and the single-threaded
event loop as a step function over an explicit watcher state.
-/

/-- A JavaScript string, modelled as its list of characters. -/
abbrev JSStr := List Char

/-- Conversion from Lean string literals, used to write concrete filenames. -/
def jstr (s : String) : JSStr := s.toList

/-- JS `String.prototype.endsWith` for a constant suffix. -/
def jsEndsWith (suffix s : JSStr) : Bool := suffix.isSuffixOf s

/-- `path.basename`: the part of a POSIX path after the final slash. -/
def basename (p : JSStr) : JSStr := (p.reverse.takeWhile (fun c => c ≠ '/')).reverse

/-- JS `str.lastIndexOf(c)`, as an option (JS returns `-1` when `c` is absent). -/
def lastIdxOf (c : Char) : JSStr → Option Nat
  | [] => none
  | a :: as =>
    match lastIdxOf c as with
    | some i => some (i + 1)
    | none => if a = c then some 0 else none

/-- JS `String.prototype.trim` (leading and trailing whitespace removed). -/
def jsTrim (s : JSStr) : JSStr :=
  ((s.dropWhile Char.isWhitespace).reverse.dropWhile Char.isWhitespace).reverse

/-- Split a string at every character satisfying `p`, keeping empty pieces,
like JS `split` on a single-character separator class. -/
def splitOnPred (p : Char → Bool) : JSStr → List JSStr
  | [] => [[]]
  | a :: as =>
    let r := splitOnPred p as
    if p a then [] :: r
    else
      match r with
      | [] => [[a]]
      | h :: t => (a :: h) :: t

/-- JS `content.split('\n')`. -/
def splitNL (s : JSStr) : List JSStr := splitOnPred (fun c => c = '\n') s

/-- JS `line.split(/\s+/)` on an already-trimmed line: splitting on runs of
whitespace is splitting on each whitespace character with the empty pieces
dropped.  (On the empty string JS returns `[""]` and this returns `[]`; both
have fewer than 4 tokens, the only way the tokenisation is consumed.) -/
def jsSplitWS (s : JSStr) : List JSStr :=
  (splitOnPred Char.isWhitespace s).filter (fun t => t ≠ [])

/-- Numeric value of a run of decimal digits. -/
def digitsVal (ds : JSStr) : Nat := ds.foldl (fun n c => 10 * n + (c.toNat - '0'.toNat)) 0

/-- Modelled from the spec: JS `parseFloat`, restricted to finite decimal
literals — optional sign, integer digits, optional fraction, optional decimal
exponent; the longest valid numeric prefix is parsed and trailing garbage is
ignored; `none` models `NaN`.  The value is the exact scaled decimal
`m * 10 ^ e`, returned as the pair `(m, e)`; `Infinity`, hexadecimal forms and
IEEE-754 double rounding are outside the model. -/
def jsParseFloat (s : JSStr) : Option (Int × Int) :=
  let sgn : Int := match s with | '-' :: _ => -1 | _ => 1
  let s1 : JSStr := match s with | '-' :: r => r | '+' :: r => r | _ => s
  let intDs := s1.takeWhile Char.isDigit
  let r2 := s1.dropWhile Char.isDigit
  let fracDs : JSStr := match r2 with | '.' :: r3 => r3.takeWhile Char.isDigit | _ => []
  let r4 : JSStr := match r2 with | '.' :: r3 => r3.dropWhile Char.isDigit | _ => r2
  if intDs = [] ∧ fracDs = [] then none
  else
    let m : Int := sgn * (digitsVal (intDs ++ fracDs) : Int)
    let e0 : Int := -(fracDs.length : Int)
    let e : Int :=
      match r4 with
      | 'e' :: r5 | 'E' :: r5 =>
        let esgn : Int := match r5 with | '-' :: _ => -1 | _ => 1
        let r6 : JSStr := match r5 with | '-' :: r => r | '+' :: r => r | _ => r5
        let eDs := r6.takeWhile Char.isDigit
        if eDs = [] then e0 else e0 + esgn * (digitsVal eDs : Int)
      | _ => e0
    some (m, e)

/-- Modelled from the spec: JS `Math.round` on the exact value `m * 10 ^ e`,
i.e. `⌊x + 1/2⌋` (halves round toward positive infinity).  For `e < 0` and
`d = 10 ^ (-e)` this is `⌊(2*m + d) / (2*d)⌋`, a floor division. -/
def jsRound : Int × Int → Int
  | (m, e) =>
    if 0 ≤ e then m * (10 : Int) ^ e.toNat
    else
      let d : Int := (10 : Int) ^ (-e).toNat
      Int.fdiv (2 * m + d) (2 * d)

/-- `extractBinPrefix` (watcher.js lines 86-94): the regex `/^(\d+_\d+)_/`
applied to an anchor filename — a leading run of digits, an underscore, a
second run of digits, and a following underscore; the key is
`digits ++ "_" ++ digits`. -/
def extractBinPrefix (filename : JSStr) : Option JSStr :=
  let d1 := filename.takeWhile Char.isDigit
  let r1 := filename.dropWhile Char.isDigit
  if d1 = [] then none
  else
    match r1 with
    | '_' :: r2 =>
      let d2 := r2.takeWhile Char.isDigit
      let r3 := r2.dropWhile Char.isDigit
      if d2 = [] then none
      else
        match r3 with
        | '_' :: _ => some (d1 ++ '_' :: d2)
        | _ => none
    | _ => none

/-- Member-filename key extraction (the body of `matchesCurrentBatch`,
watcher.js lines 100-106, and the `.txt` branch of `extractPrefix` in the test
script): everything before the last underscore, provided that underscore sits
at a positive index (`lastIndexOf('_') > 0`); otherwise null. -/
def extractTxtKey (filename : JSStr) : Option JSStr :=
  match lastIdxOf '_' filename with
  | some i => if 0 < i then some (filename.take i) else none
  | none => none

/-- `extractSFValue` (watcher.js lines 119-130): trim, split on whitespace;
with at least 4 tokens, parse the last token as a float and round it;
otherwise (or when parsing yields NaN) null. -/
def extractSFValue (line : JSStr) : Option Int :=
  let parts := jsSplitWS (jsTrim line)
  if 4 ≤ parts.length then
    match parts.getLast? with
    | some lastTok =>
      match jsParseFloat lastTok with
      | some v => some (jsRound v)
      | none => none
    | none => none
  else none

/-- Increment the count stored under key `v` of a JS-object-like association
list, appending a fresh key at the end (JS object insertion order). -/
def bump (m : List (Int × Nat)) (v : Int) : List (Int × Nat) :=
  match m with
  | [] => [(v, 1)]
  | (k, n) :: rest => if k = v then (k, n + 1) :: rest else (k, n) :: bump rest v

/-- Lookup in the association list, `0` when absent. -/
def tallyGet (m : List (Int × Nat)) (v : Int) : Nat :=
  match m with
  | [] => 0
  | (k, n) :: rest => if k = v then n else tallyGet rest v

/-- `countSFValues` (watcher.js lines 133-145): split the content into
non-blank lines and accumulate one count per classified line into a keyed
tally object. -/
def countSFValues (content : JSStr) : List (Int × Nat) :=
  let lines := (splitNL content).filter (fun l => jsTrim l ≠ [])
  lines.foldl
    (fun m line =>
      match extractSFValue line with
      | some v => bump m v
      | none => m) []

/-- The mutable `currentBatch` object (watcher.js lines 28-33). -/
structure Batch where
  binPrefix : Option JSStr
  binFile : Option JSStr
  txtFiles : List JSStr
  isProcessing : Bool
deriving DecidableEq

/-- The reset value of the batch (lines 28-33, restored at lines 361-366). -/
def emptyBatch : Batch :=
  { binPrefix := none, binFile := none, txtFiles := [], isProcessing := false }

/-- One Tracking Record (the `fileEntry` object, lines 176-182), with
timestamps as abstract instants. -/
structure TrackEntry where
  timestamp : Nat
  totalPoints : Nat
  sfCounts : List (Int × Nat)
deriving DecidableEq

/-- One recorded invocation of the report-sync collaborator (the call at
line 231), keeping the arguments the core passes to it. -/
structure SheetsCall where
  key : JSStr
  counts : List (Int × Nat)
  prevTime : Nat
  curTime : Nat
  comment : JSStr
  totalPoints : Nat
deriving DecidableEq

/-- The whole observable state of the watcher process: the in-memory batch
bookkeeping plus the directories and stores it mutates. -/
structure WatcherState where
  currentBatch : Batch
  processedFiles : List JSStr
  batchTimeout : Option Nat
  inputDir : List JSStr
  binDir : List JSStr
  resultsDir : List (JSStr × JSStr)
  tracking : List (JSStr × TrackEntry)
  sheetsCalls : List SheetsCall
deriving DecidableEq

/-- External collaborators and ambient inputs of a processing pass:
`fs.readFile` (`none` models a throw), the AI summariser and the report-sync
collaborator (each may throw), whether SHEET_ID/SHEET_NAME are configured,
and the current instant. -/
structure Env where
  fileContent : JSStr → Option JSStr
  aiResult : Except Unit JSStr
  syncResult : Except Unit Unit
  sheetConfigured : Bool
  now : Nat

/-- JS object update `store[k] = entry` on a keyed association list. -/
def storeSet (store : List (JSStr × TrackEntry)) (k : JSStr) (v : TrackEntry) :
    List (JSStr × TrackEntry) :=
  match store with
  | [] => [(k, v)]
  | (k', v') :: rest => if k' = k then (k, v) :: rest else (k', v') :: storeSet rest k v

/-- JS object read `store[k]` on a keyed association list. -/
def storeGet (store : List (JSStr × TrackEntry)) (k : JSStr) : Option TrackEntry :=
  match store with
  | [] => none
  | (k', v') :: rest => if k' = k then some v' else storeGet rest k

/-- JS `s.replace(pat, '')`: remove the first occurrence of `pat`, if any. -/
def jsRemoveFirst (pat : JSStr) : JSStr → JSStr
  | [] => []
  | a :: as =>
    if pat.isPrefixOf (a :: as) then (a :: as).drop pat.length
    else a :: jsRemoveFirst pat as

/-- `Object.values(sfCounts).reduce((sum, count) => sum + count, 0)`
(line 179). -/
def tallyTotal (m : List (Int × Nat)) : Nat := (m.map Prod.snd).sum

/-- `updateSFTracking` (watcher.js lines 169-242): write the new record into
the tracking store under the result filename, save the store, obtain the AI
comment (falling back to a fixed string when the summariser throws, lines
206-213), and — when sheets are configured — look the "previous time" up
from the store as it stands after the overwrite (lines 224-228) and invoke
the report-sync collaborator.  A throw of the sync collaborator is caught at
line 235 and only logged, so the resulting state does not depend on its
outcome. -/
def updateSFTracking (env : Env) (s : WatcherState) (mergedFileName : JSStr)
    (sfCounts : List (Int × Nat)) : WatcherState :=
  let fileEntry : TrackEntry :=
    { timestamp := env.now, totalPoints := tallyTotal sfCounts, sfCounts := sfCounts }
  let trackingData := storeSet s.tracking mergedFileName fileEntry
  let s1 := { s with tracking := trackingData }
  let aiComment : JSStr :=
    match env.aiResult with
    | .ok c => c
    | .error _ => jstr "Completed. No problem. Review GOOD"
  if env.sheetConfigured then
    let key := jsRemoveFirst (jstr "_result.txt") mergedFileName
    let prevTime : Nat :=
      match storeGet trackingData mergedFileName with
      | some e => e.timestamp
      | none => env.now
    { s1 with sheetsCalls := s1.sheetsCalls ++
        [{ key := key, counts := sfCounts, prevTime := prevTime, curTime := env.now,
           comment := aiComment, totalPoints := fileEntry.totalPoints }] }
  else s1

/-- `moveBinFile` (lines 245-257): rename the anchor out of INPUT_DIR into
BIN_DIR. -/
def moveBinFile (s : WatcherState) (filePath : JSStr) : WatcherState :=
  let filename := basename filePath
  { s with inputDir := s.inputDir.filter (fun f => f ≠ filename),
           binDir := s.binDir ++ [filename] }

/-- Lexicographic code-unit comparison of JS strings — the default comparator
of `Array.prototype.sort`. -/
def jsLe : JSStr → JSStr → Bool
  | [], _ => true
  | _ :: _, [] => false
  | a :: as, b :: bs =>
    if a.toNat < b.toNat then true
    else if b.toNat < a.toNat then false
    else jsLe as bs

/-- The propositional form of `jsLe`, used with the library sort. -/
def JsLeP (a b : JSStr) : Prop := jsLe a b = true

instance : DecidableRel JsLeP := fun a b => inferInstanceAs (Decidable (jsLe a b = true))

/-- `currentBatch.txtFiles.sort()` (line 268): a stable sort by the default
JS comparator.  Stability does not matter because the comparator is
antisymmetric. -/
def jsSort (l : List JSStr) : List JSStr := List.insertionSort JsLeP l

/-- The non-blank lines of one file's content (line 278):
`content.split('\n').filter(line => line.trim())`. -/
def nonBlankLines (content : JSStr) : List JSStr :=
  (splitNL content).filter (fun l => jsTrim l ≠ [])

/-- The merged-content computation of `mergeTxtFiles` (lines 266-291): sort
the member paths, read each file and append its non-blank lines — a file
whose read throws is skipped with a warning (lines 283-285) — then join all
collected lines with single newlines (line 291). -/
def mergeTxtContent (readF : JSStr → Option JSStr) (files : List JSStr) : JSStr :=
  let sorted := jsSort files
  let mergedContent :=
    sorted.foldl
      (fun acc p =>
        match readF p with
        | some c => acc ++ nonBlankLines c
        | none => acc) []
  List.intercalate ['\n'] mergedContent

/-- `mergeTxtFiles` (lines 260-308) as a state transformer: with no members
it only logs; otherwise it writes `<key>_result.txt` with the merged content
into RESULTS_DIR and, when the tally is non-empty, runs `updateSFTracking`
(lines 297-303).  The in-place `sort()` of line 268 is reflected into the
batch. -/
def mergeTxtFiles (env : Env) (s : WatcherState) : WatcherState :=
  if s.currentBatch.txtFiles = [] then s
  else
    let sorted := jsSort s.currentBatch.txtFiles
    let s0 := { s with currentBatch := { s.currentBatch with txtFiles := sorted } }
    let merged := mergeTxtContent env.fileContent s.currentBatch.txtFiles
    let keyStr := (s.currentBatch.binPrefix).getD (jstr "null")
    let resultFilename := keyStr ++ jstr "_result.txt"
    let s1 := { s0 with resultsDir := s0.resultsDir ++ [(resultFilename, merged)] }
    let sfCounts := countSFValues merged
    if sfCounts ≠ [] then updateSFTracking env s1 resultFilename sfCounts
    else s1

/-- `processCurrentBatch` (lines 333-371): guarded by `isProcessing`; then
move the anchor, merge the members, clear INPUT_DIR (lines 311-330 delete
every remaining file); the `finally` block (lines 359-370) resets the batch
and clears the dedup set whatever happened before it. -/
def processCurrentBatch (env : Env) (s : WatcherState) : WatcherState :=
  if s.currentBatch.isProcessing then s
  else
    let s1 :=
      match s.currentBatch.binFile with
      | some bf => moveBinFile s bf
      | none => s
    let s2 := mergeTxtFiles env s1
    let s3 := { s2 with inputDir := [] }
    { s3 with currentBatch := emptyBatch, processedFiles := [] }

/-- `matchesCurrentBatch` (lines 97-107): strict comparison of the member's
own derived key against the open batch key.  Defined in the source but never
called on the acceptance path. -/
def matchesCurrentBatch (b : Batch) (filename : JSStr) : Bool :=
  match b.binPrefix with
  | none => false
  | some k =>
    match extractTxtKey filename with
    | some p => p == k
    | none => false

/-- `shouldIncludeInBatch` (lines 110-116): once a batch is open, every
`.txt` filename qualifies — the member's own key is never consulted. -/
def shouldIncludeInBatch (b : Batch) (filename : JSStr) : Bool :=
  match b.binPrefix with
  | none => false
  | some _ => jsEndsWith (jstr ".txt") filename

/-- `handleBinFile` (lines 374-412): a duplicate path or an arrival during
processing is rejected with the state unchanged; otherwise, when the prefix
extracts, any pending countdown is cancelled (lines 399-402) and the batch
fields are overwritten for the new anchor with an empty member list (lines
405-408). -/
def handleBinFile (s : WatcherState) (filePath : JSStr) : WatcherState :=
  let filename := basename filePath
  if filePath ∈ s.processedFiles then s
  else if s.currentBatch.isProcessing then s
  else
    match extractBinPrefix filename with
    | none => s
    | some pfx =>
      { s with batchTimeout := none,
               currentBatch := { s.currentBatch with
                 binPrefix := some pfx, binFile := some filePath, txtFiles := [] },
               processedFiles := filePath :: s.processedFiles }

/-- `handleTxtFile` (lines 415-444): a member is ignored without an open
batch, or when `shouldIncludeInBatch` refuses it, or when its path is already
in the dedup set; otherwise it is appended to the member list and recorded in
the dedup set. -/
def handleTxtFile (s : WatcherState) (filePath : JSStr) : WatcherState :=
  let filename := basename filePath
  if s.currentBatch.binPrefix = none then s
  else if ¬ shouldIncludeInBatch s.currentBatch filename then s
  else if filePath ∈ s.processedFiles then s
  else
    { s with currentBatch := { s.currentBatch with
               txtFiles := s.currentBatch.txtFiles ++ [filePath] },
             processedFiles := filePath :: s.processedFiles }

/-- `handleFile` (lines 447-455): dispatch on the filename suffix. -/
def handleFile (s : WatcherState) (filePath : JSStr) : WatcherState :=
  let filename := basename filePath
  if jsEndsWith (jstr ".bin") filename then handleBinFile s filePath
  else if jsEndsWith (jstr ".txt") filename then handleTxtFile s filePath
  else s

/-- Modelled from the spec: JS `parseInt` in base 10 — leading whitespace and
an optional sign, then the longest run of decimal digits; `none` models NaN.
Hexadecimal prefixes are outside the model. -/
def jsParseInt (s : JSStr) : Option Int :=
  let s0 := s.dropWhile Char.isWhitespace
  let sgn : Int := match s0 with | '-' :: _ => -1 | _ => 1
  let s1 : JSStr := match s0 with | '-' :: r => r | '+' :: r => r | _ => s0
  let ds := s1.takeWhile Char.isDigit
  if ds = [] then none else some (sgn * (digitsVal ds : Int))

/-- `BATCH_TIMEOUT_MS` (line 24): `parseInt(process.env.BATCH_TIMEOUT_MS) || 10000`.
`parseInt` of an unset variable is NaN, and `||` also replaces a parsed 0 by
the default. -/
def batchTimeoutMs (envVar : Option JSStr) : Int :=
  match envVar with
  | none => 10000
  | some v =>
    match jsParseInt v with
    | none => 10000
    | some n => if n = 0 then 10000 else n

/-- The literal delay passed to `setTimeout` when the countdown is scheduled
(lines 550 and 604): the hard-coded constant 10000, not `BATCH_TIMEOUT_MS`. -/
def watcherSetTimeoutDelay : Nat := 10000

/-- One event consumed by the single-threaded loop: a file-arrival
notification at a given instant, or the firing of the scheduled countdown. -/
inductive Ev where
  | arr (t : Nat) (p : JSStr)
  | fire (t : Nat)

/-- The `add` handler (lines 521-554; the polling handler at lines 581-606 is
identical): handle the file, then, when the batch has an anchor and at least
one member, cancel any pending countdown and schedule a fresh one for
`watcherSetTimeoutDelay` after the arrival. -/
def onAdd (s : WatcherState) (t : Nat) (p : JSStr) : WatcherState :=
  let s1 := handleFile s p
  if s1.currentBatch.binPrefix.isSome ∧ s1.currentBatch.binFile.isSome ∧
      s1.currentBatch.txtFiles ≠ [] then
    { s1 with batchTimeout := some (t + watcherSetTimeoutDelay) }
  else s1

/-- The countdown callback (lines 544-550): a timer runs only if it is still
the scheduled one (`clearTimeout` prevents a cancelled timer from ever
firing); the callback processes the batch when one is open and not already
processing, then clears the timer slot. -/
def onFire (env : Env) (s : WatcherState) (t : Nat) : WatcherState :=
  if s.batchTimeout = some t then
    let s1 :=
      if s.currentBatch.binPrefix.isSome ∧ ¬ s.currentBatch.isProcessing then
        processCurrentBatch env s
      else s
    { s1 with batchTimeout := none }
  else s

/-- The event-loop step function of the watcher. -/
def step (env : Env) (s : WatcherState) : Ev → WatcherState
  | .arr t p => onAdd s t p
  | .fire t => onFire env s t

/-- The state at process start. -/
def initState : WatcherState :=
  { currentBatch := emptyBatch, processedFiles := [], batchTimeout := none,
    inputDir := [], binDir := [], resultsDir := [], tracking := [], sheetsCalls := [] }

/-- A concrete environment used by closed instances. -/
def env0 : Env :=
  { fileContent := fun _ => none, aiResult := .error (), syncResult := .ok (),
    sheetConfigured := true, now := 0 }

/-- A state with an open batch for key `000025_18` and no members yet. -/
def sOpen : WatcherState :=
  { initState with
    currentBatch := { binPrefix := some (jstr "000025_18"),
                      binFile := some (jstr "input/000025_18_a.bin"),
                      txtFiles := [], isProcessing := false },
    processedFiles := [jstr "input/000025_18_a.bin"],
    inputDir := [jstr "000025_18_a.bin"] }

/-- A state with an open batch for key `000025_18` holding one member and a
pending countdown. -/
def sOpenWithMember : WatcherState :=
  { initState with
    currentBatch := { binPrefix := some (jstr "000025_18"),
                      binFile := some (jstr "input/000025_18_a.bin"),
                      txtFiles := [jstr "input/000025_18_0001.txt"], isProcessing := false },
    processedFiles := [jstr "input/000025_18_a.bin", jstr "input/000025_18_0001.txt"],
    inputDir := [jstr "000025_18_a.bin", jstr "000025_18_0001.txt"],
    batchTimeout := some 42 }

/-- An environment whose clock reads instant 2000. -/
def envPrior : Env :=
  { fileContent := fun _ => none, aiResult := .ok (jstr "ok"), syncResult := .ok (),
    sheetConfigured := true, now := 2000 }

/-- A state whose tracking store already holds a prior record, with timestamp
1000, under the output filename `000025_18_result.txt`. -/
def sWithPrior : WatcherState :=
  { initState with
    tracking := [(jstr "000025_18_result.txt",
                  { timestamp := 1000, totalPoints := 3, sfCounts := [(1, 3)] })] }

/-- A two-file read capability used by concrete merge instances. -/
def readF0 (p : JSStr) : Option JSStr :=
  if p = jstr "input/000025_18_0001.txt" then some (jstr "1 2 3 1.0\n\n1 2 3 2.0")
  else if p = jstr "input/000025_18_0002.txt" then some (jstr "4 5 6 3.0\n ")
  else none

example : extractBinPrefix (jstr "000025_18_quebec_2022.bin") = some (jstr "000025_18") := by decide
example : extractTxtKey (jstr "000025_18_0001.txt") = some (jstr "000025_18") := by decide
example : extractTxtKey (jstr "abc_0001.txt") = some (jstr "abc") := by decide
example : extractTxtKey (jstr "_0001.txt") = none := by decide
example : extractSFValue (jstr "-1.1 -2.2 -3.3 2.000000") = some 2 := by decide
example : extractSFValue (jstr "-1.1 -2.2 2.000000") = none := by decide
example : extractSFValue (jstr "-1.1 -2.2 -3.3 abc") = none := by decide
example : tallyGet (countSFValues (jstr "-1.1 -2.2 -3.3 2.000000\n\n1 2 3 1.2")) 2 = 1 := by decide
example : tallyGet (countSFValues (jstr "-1.1 -2.2 -3.3 2.000000\n1 2 3 1.2")) 1 = 1 := by decide

theorem lastIdxOf_eq_none {c : Char} : ∀ {l : JSStr}, lastIdxOf c l = none → c ∉ l
  | [], _ => by simp
  | a :: as, h => by
    rw [lastIdxOf] at h
    cases hm : lastIdxOf c as with
    | some i => rw [hm] at h; exact absurd h (by simp)
    | none =>
      rw [hm] at h
      by_cases hac : a = c
      · rw [if_pos hac] at h; exact absurd h (by simp)
      · rw [if_neg hac] at h
        simp only [List.mem_cons, not_or]
        exact ⟨fun hca => hac hca.symm, lastIdxOf_eq_none hm⟩

theorem lastIdxOf_spec {c : Char} : ∀ {l : JSStr} {i : Nat}, lastIdxOf c l = some i →
    ∃ rest, l = l.take i ++ c :: rest ∧ c ∉ rest
  | [], i, h => by simp [lastIdxOf] at h
  | a :: as, i, h => by
    rw [lastIdxOf] at h
    cases hm : lastIdxOf c as with
    | some j =>
      rw [hm] at h
      obtain ⟨rest, heq, hni⟩ := lastIdxOf_spec hm
      have hi : i = j + 1 := by injection h with h'; omega
      subst hi
      refine ⟨rest, ?_, hni⟩
      rw [List.take_succ_cons]
      exact congrArg (a :: ·) heq
    | none =>
      rw [hm] at h
      by_cases hac : a = c
      · rw [if_pos hac] at h
        have hi : i = 0 := by injection h with h'; omega
        subst hi
        exact ⟨as, by simp [hac], lastIdxOf_eq_none hm⟩
      · rw [if_neg hac] at h; cases h

/-- C4 counterexample: the member filename `abc_0001.txt` contains exactly
one separator in total, yet key extraction does not yield null — it yields
`abc`, refuting the zero-or-one-separator clause of the claim. -/
theorem c4_counterexample :
    (jstr "abc_0001.txt").count '_' = 1 ∧
    extractTxtKey (jstr "abc_0001.txt") = some (jstr "abc") := by decide

/-- C4 amended: member-key extraction yields null exactly when the filename
has no separator at all, or its last separator sits at index 0; whenever the
last separator sits at a positive index — even if it is the only separator in
the name — the extracted key is everything before that last separator
occurrence. -/
theorem c4_txt_key_extraction (f : JSStr) :
    (lastIdxOf '_' f = none → extractTxtKey f = none) ∧
    (lastIdxOf '_' f = some 0 → extractTxtKey f = none) ∧
    (∀ i, lastIdxOf '_' f = some i → 0 < i →
      ∃ rest, f = f.take i ++ '_' :: rest ∧ '_' ∉ rest ∧
        extractTxtKey f = some (f.take i)) := by
  refine ⟨fun h => by simp [extractTxtKey, h], fun h => by simp [extractTxtKey, h], ?_⟩
  intro i h hi
  obtain ⟨rest, heq, hni⟩ := lastIdxOf_spec h
  exact ⟨rest, heq, hni, by simp [extractTxtKey, h, hi]⟩

theorem c4_txt_key_extraction_witness :
    ∃ rest, jstr "000025_18_0001.txt" =
        (jstr "000025_18_0001.txt").take 9 ++ '_' :: rest ∧ '_' ∉ rest ∧
        extractTxtKey (jstr "000025_18_0001.txt") = some ((jstr "000025_18_0001.txt").take 9) :=
  (c4_txt_key_extraction (jstr "000025_18_0001.txt")).2.2 9 (by decide) (by decide)

/-- C1 counterexample: with a batch open for key `000025_18` (holding one
member, not processing), the arrival of a fresh anchor `000026_01_b.bin` is
not rejected: the batch key is overwritten and the member set is cleared. -/
theorem c1_counterexample :
    (handleBinFile sOpenWithMember (jstr "input/000026_01_b.bin")).currentBatch.binPrefix =
      some (jstr "000026_01") ∧
    sOpenWithMember.currentBatch.binPrefix = some (jstr "000025_18") ∧
    (handleBinFile sOpenWithMember (jstr "input/000026_01_b.bin")).currentBatch.txtFiles = [] ∧
    sOpenWithMember.currentBatch.txtFiles ≠ [] := by decide

/-- C1 amended: an anchor arriving while the batch is Finalizing
(`isProcessing`), or one whose path is already in the dedup set, is rejected
with the watcher state unchanged; but an anchor with a fresh path and a valid
prefix arriving while a batch is merely Open is not rejected — it replaces
the current batch: key and anchor path are overwritten, the member set is
reset to empty, the pending countdown is cancelled, and the path joins the
dedup set. -/
theorem c1_anchor_arrival (s : WatcherState) (p : JSStr) :
    (s.currentBatch.isProcessing = true → handleBinFile s p = s) ∧
    (p ∈ s.processedFiles → handleBinFile s p = s) ∧
    (∀ k, s.currentBatch.isProcessing = false → p ∉ s.processedFiles →
      extractBinPrefix (basename p) = some k →
      handleBinFile s p =
        { s with batchTimeout := none,
                 currentBatch := { s.currentBatch with
                   binPrefix := some k, binFile := some p, txtFiles := [] },
                 processedFiles := p :: s.processedFiles }) := by
  refine ⟨?_, ?_, ?_⟩
  · intro h
    by_cases hp : p ∈ s.processedFiles <;> simp [handleBinFile, hp, h]
  · intro h
    simp [handleBinFile, h]
  · intro k h1 h2 h3
    simp [handleBinFile, h1, h2, h3]

theorem c1_anchor_arrival_witness :
    handleBinFile sOpenWithMember (jstr "input/000026_01_b.bin") =
      { sOpenWithMember with
        batchTimeout := none,
        currentBatch := { sOpenWithMember.currentBatch with
          binPrefix := some (jstr "000026_01"),
          binFile := some (jstr "input/000026_01_b.bin"), txtFiles := [] },
        processedFiles := jstr "input/000026_01_b.bin" :: sOpenWithMember.processedFiles } :=
  (c1_anchor_arrival sOpenWithMember (jstr "input/000026_01_b.bin")).2.2 (jstr "000026_01")
    (by decide) (by decide) (by decide)

/-- C2: the completion-timeout configuration `BATCH_TIMEOUT_MS` parses an
override of 5000, yet the countdown scheduled for a member arrival at instant
0 expires at 10000 — the hard-coded `setTimeout` delay — because the arrival
handler never consults the configured value. -/
theorem c2_timeout_config_ignored :
    batchTimeoutMs (some (jstr "5000")) = 5000 ∧
    watcherSetTimeoutDelay = 10000 ∧
    (onAdd sOpenWithMember 0 (jstr "input/000025_18_0002.txt")).batchTimeout = some 10000 := by
  decide

/-- C3: at a store holding a prior record with timestamp 1000 under the
output filename `000025_18_result.txt`, the report-sync invocation issued
while finalizing at instant 2000 carries previous-time 2000 — the timestamp
of the record just created for the current batch — not the prior record's
1000, because the store is overwritten before the lookup. -/
theorem c3_prev_time_is_current :
    storeGet sWithPrior.tracking (jstr "000025_18_result.txt") =
      some { timestamp := 1000, totalPoints := 3, sfCounts := [(1, 3)] } ∧
    (updateSFTracking envPrior sWithPrior (jstr "000025_18_result.txt") [(2, 5)]).sheetsCalls =
      [{ key := jstr "000025_18", counts := [(2, 5)], prevTime := 2000, curTime := 2000,
         comment := jstr "ok", totalPoints := 5 }] := by decide

/-- C5: member matching is loose — while a batch is open for key `k` and not
yet processing, any `.txt` arrival whose path is not already in the dedup set
is appended to the member list, with no hypothesis relating the member's own
derived key to `k`; and `shouldIncludeInBatch` accepts every `.txt` filename
once a batch is open, never consulting the member's derived key. -/
theorem c5_loose_matching (s : WatcherState) (k p : JSStr)
    (hopen : s.currentBatch.binPrefix = some k)
    (_hproc : s.currentBatch.isProcessing = false)
    (hsuf : jsEndsWith (jstr ".txt") (basename p) = true)
    (hfresh : p ∉ s.processedFiles) :
    (handleTxtFile s p).currentBatch.txtFiles = s.currentBatch.txtFiles ++ [p] ∧
    (handleTxtFile s p).currentBatch.binPrefix = some k ∧
    (∀ f, jsEndsWith (jstr ".txt") f = true → shouldIncludeInBatch s.currentBatch f = true) := by
  have hinc : shouldIncludeInBatch s.currentBatch (basename p) = true := by
    simp [shouldIncludeInBatch, hopen, hsuf]
  refine ⟨?_, ?_, ?_⟩
  · simp [handleTxtFile, hopen, hinc, hfresh]
  · simp [handleTxtFile, hopen, hinc, hfresh]
  · intro f hf; simp [shouldIncludeInBatch, hopen, hf]

theorem c5_loose_matching_witness :
    extractTxtKey (basename (jstr "input/000025_19_0001.txt")) = some (jstr "000025_19") ∧
    (handleTxtFile sOpen (jstr "input/000025_19_0001.txt")).currentBatch.txtFiles =
      sOpen.currentBatch.txtFiles ++ [jstr "input/000025_19_0001.txt"] :=
  ⟨by decide,
   (c5_loose_matching sOpen (jstr "000025_18") (jstr "input/000025_19_0001.txt")
      (by decide) (by decide) (by decide) (by decide)).1⟩

theorem shouldIncludeInBatch_congr {b b' : Batch} (h : b'.binPrefix = b.binPrefix)
    (f : JSStr) : shouldIncludeInBatch b' f = shouldIncludeInBatch b f := by
  unfold shouldIncludeInBatch
  rw [h]

/-- C8: arrival-event idempotence — feeding the same path to the member
handler twice yields the same state as feeding it once, and when the path is
fresh (not yet in the dedup set or the member list) the doubled arrival
leaves exactly one entry for it in batch membership. -/
theorem c8_dedup_idempotent (s : WatcherState) (p : JSStr) :
    handleTxtFile (handleTxtFile s p) p = handleTxtFile s p ∧
    (shouldIncludeInBatch s.currentBatch (basename p) = true →
     p ∉ s.processedFiles → p ∉ s.currentBatch.txtFiles →
     (handleTxtFile (handleTxtFile s p) p).currentBatch.txtFiles.count p = 1) := by
  have hmain : handleTxtFile (handleTxtFile s p) p = handleTxtFile s p := by
    by_cases h1 : s.currentBatch.binPrefix = none
    · simp [handleTxtFile, h1]
    · by_cases h2 : shouldIncludeInBatch s.currentBatch (basename p) = true
      · by_cases h3 : p ∈ s.processedFiles
        · simp [handleTxtFile, h1, h2, h3]
        · have hb : ({ s.currentBatch with
              txtFiles := s.currentBatch.txtFiles ++ [p] } : Batch).binPrefix =
              s.currentBatch.binPrefix := rfl
          simp [handleTxtFile, h1, h2, h3, shouldIncludeInBatch_congr hb]
      · simp [handleTxtFile, h1, h2]
  refine ⟨hmain, ?_⟩
  intro hinc hfresh hnotin
  have h1 : s.currentBatch.binPrefix ≠ none := by
    intro hn
    rw [shouldIncludeInBatch] at hinc
    rw [hn] at hinc
    exact absurd hinc (by simp)
  rw [hmain]
  have htxt : (handleTxtFile s p).currentBatch.txtFiles = s.currentBatch.txtFiles ++ [p] := by
    simp [handleTxtFile, h1, hinc, hfresh]
  rw [htxt, List.count_append]
  rw [List.count_eq_zero.mpr hnotin]
  simp

theorem c8_dedup_idempotent_witness :
    (handleTxtFile (handleTxtFile sOpen (jstr "input/000025_18_0001.txt"))
        (jstr "input/000025_18_0001.txt")).currentBatch.txtFiles.count
      (jstr "input/000025_18_0001.txt") = 1 :=
  (c8_dedup_idempotent sOpen (jstr "input/000025_18_0001.txt")).2
    (by decide) (by decide) (by decide)

/-- C7: a throwing report-sync collaborator is swallowed — processing a batch
yields the same state whether the sync call throws or succeeds — and in every
environment a finalize pass on a non-processing batch empties the intake
directory, resets the batch to Empty and clears the dedup set. -/
theorem c7_sync_failure_swallowed (env : Env) (s : WatcherState) (e : Unit) :
    processCurrentBatch { env with syncResult := .error e } s =
      processCurrentBatch { env with syncResult := .ok () } s ∧
    (s.currentBatch.isProcessing = false →
      (processCurrentBatch env s).inputDir = [] ∧
      (processCurrentBatch env s).currentBatch = emptyBatch ∧
      (processCurrentBatch env s).processedFiles = []) := by
  constructor
  · rfl
  · intro h
    unfold processCurrentBatch
    rw [h]
    exact ⟨rfl, rfl, rfl⟩

theorem c7_sync_failure_swallowed_witness :
    (processCurrentBatch env0 sOpenWithMember).inputDir = [] ∧
    (processCurrentBatch env0 sOpenWithMember).currentBatch = emptyBatch ∧
    (processCurrentBatch env0 sOpenWithMember).processedFiles = [] :=
  (c7_sync_failure_swallowed env0 sOpenWithMember ()).2 (by decide)

theorem updateSFTracking_resultsDir (env : Env) (s : WatcherState) (f : JSStr)
    (c : List (Int × Nat)) : (updateSFTracking env s f c).resultsDir = s.resultsDir := by
  by_cases h : env.sheetConfigured <;> simp [updateSFTracking, h]

theorem mergeTxtFiles_len (env : Env) (s : WatcherState)
    (hne : s.currentBatch.txtFiles ≠ []) :
    (mergeTxtFiles env s).resultsDir.length = s.resultsDir.length + 1 := by
  by_cases hc : countSFValues (mergeTxtContent env.fileContent s.currentBatch.txtFiles) = [] <;>
    simp [mergeTxtFiles, hne, hc, updateSFTracking_resultsDir]

theorem moveStage_currentBatch (s : WatcherState) :
    (match s.currentBatch.binFile with
      | some bf => moveBinFile s bf
      | none => s).currentBatch = s.currentBatch := by
  cases s.currentBatch.binFile <;> rfl

theorem moveStage_resultsDir (s : WatcherState) :
    (match s.currentBatch.binFile with
      | some bf => moveBinFile s bf
      | none => s).resultsDir = s.resultsDir := by
  cases s.currentBatch.binFile <;> rfl

theorem processCurrentBatch_run (env : Env) (s : WatcherState)
    (h : s.currentBatch.isProcessing = false) (hne : s.currentBatch.txtFiles ≠ []) :
    (processCurrentBatch env s).resultsDir.length = s.resultsDir.length + 1 ∧
    (processCurrentBatch env s).currentBatch = emptyBatch := by
  have hpc : processCurrentBatch env s =
      { mergeTxtFiles env (match s.currentBatch.binFile with
          | some bf => moveBinFile s bf
          | none => s) with
        inputDir := [], currentBatch := emptyBatch, processedFiles := [] } := by
    unfold processCurrentBatch
    rw [h]
    rfl
  rw [hpc]
  refine ⟨?_, rfl⟩
  have h1 := mergeTxtFiles_len env
    (match s.currentBatch.binFile with
      | some bf => moveBinFile s bf
      | none => s)
    (by rw [moveStage_currentBatch]; exact hne)
  rw [moveStage_resultsDir] at h1
  exact h1

theorem txt_not_bin {f : JSStr} (h : jsEndsWith (jstr ".txt") f = true) :
    jsEndsWith (jstr ".bin") f = false := by
  by_contra hb
  rw [Bool.not_eq_false] at hb
  rw [jsEndsWith] at h hb
  have h1 : jstr ".txt" <:+ f := by rwa [List.isSuffixOf_iff_suffix] at h
  have h2 : jstr ".bin" <:+ f := by rwa [List.isSuffixOf_iff_suffix] at hb
  obtain ⟨t1, e1⟩ := h1
  obtain ⟨t2, e2⟩ := h2
  have hlen : t1.length = t2.length := by
    have := congrArg List.length (e1.trans e2.symm)
    simp [jstr] at this
    omega
  have := (List.append_inj (e1.trans e2.symm) hlen).2
  exact absurd this (by decide)

theorem handleFile_txt {s : WatcherState} {p : JSStr}
    (h : jsEndsWith (jstr ".txt") (basename p) = true) :
    handleFile s p = handleTxtFile s p := by
  simp [handleFile, txt_not_bin h, h]

theorem handleTxtFile_accept {s : WatcherState} {p k : JSStr}
    (hopen : s.currentBatch.binPrefix = some k)
    (hsuf : jsEndsWith (jstr ".txt") (basename p) = true)
    (hfresh : p ∉ s.processedFiles) :
    handleTxtFile s p =
      { s with currentBatch := { s.currentBatch with
                 txtFiles := s.currentBatch.txtFiles ++ [p] },
               processedFiles := p :: s.processedFiles } := by
  have hinc : shouldIncludeInBatch s.currentBatch (basename p) = true := by
    simp [shouldIncludeInBatch, hopen, hsuf]
  simp [handleTxtFile, hopen, hinc, hfresh]

/-- C6: completion-timer debounce.  (1) An accepted member arrival at instant
`t` cancels whatever countdown was pending and schedules the single new one
for `t + 10000`.  (2) A cancelled or stale timer never does anything: a fire
event whose deadline is not the one scheduled leaves the state unchanged.
(3) When the scheduled countdown fires on an open, non-processing batch with
members, finalize runs — exactly one result file is written and the batch
resets to Empty — the timer slot empties, and every further fire event is a
no-op: finalize runs exactly once per batch. -/
theorem c6_debounce (env : Env) (s : WatcherState) :
    (∀ t p k, s.currentBatch.binPrefix = some k →
      s.currentBatch.binFile.isSome = true →
      s.currentBatch.isProcessing = false →
      jsEndsWith (jstr ".txt") (basename p) = true → p ∉ s.processedFiles →
      (step env s (.arr t p)).batchTimeout = some (t + watcherSetTimeoutDelay)) ∧
    (∀ t, s.batchTimeout ≠ some t → step env s (.fire t) = s) ∧
    (∀ d k, s.batchTimeout = some d → s.currentBatch.binPrefix = some k →
      s.currentBatch.txtFiles ≠ [] → s.currentBatch.isProcessing = false →
      (step env s (.fire d)).resultsDir.length = s.resultsDir.length + 1 ∧
      (step env s (.fire d)).currentBatch = emptyBatch ∧
      (step env s (.fire d)).batchTimeout = none ∧
      (∀ t', step env (step env s (.fire d)) (.fire t') = step env s (.fire d))) := by
  refine ⟨?_, ?_, ?_⟩
  · intro t p k hopen hbin hproc hsuf hfresh
    simp [step, onAdd, handleFile_txt hsuf, handleTxtFile_accept hopen hsuf hfresh,
      hopen, hbin]
  · intro t h
    simp [step, onFire, h]
  · intro d k hd hk hne hproc
    have hfire : step env s (.fire d) = { processCurrentBatch env s with batchTimeout := none } := by
      simp [step, onFire, hd, hk, hproc]
    obtain ⟨hlen, hbatch⟩ := processCurrentBatch_run env s hproc hne
    refine ⟨?_, ?_, ?_, ?_⟩
    · rw [hfire]; exact hlen
    · rw [hfire]; exact hbatch
    · rw [hfire]
    · intro t'
      rw [hfire]
      simp [step, onFire]

theorem c6_debounce_witness :
    (step env0 sOpenWithMember (.arr 5 (jstr "input/000025_18_0002.txt"))).batchTimeout =
      some (5 + watcherSetTimeoutDelay) ∧
    step env0 sOpenWithMember (.fire 7) = sOpenWithMember ∧
    (step env0 sOpenWithMember (.fire 42)).currentBatch = emptyBatch :=
  ⟨(c6_debounce env0 sOpenWithMember).1 5 (jstr "input/000025_18_0002.txt")
      (jstr "000025_18") (by decide) (by decide) (by decide) (by decide) (by decide),
   (c6_debounce env0 sOpenWithMember).2.1 7 (by decide),
   ((c6_debounce env0 sOpenWithMember).2.2 42 (jstr "000025_18")
      (by decide) (by decide) (by decide) (by decide)).2.1⟩

theorem char_toNat_inj {a b : Char} (h : a.toNat = b.toNat) : a = b :=
  Char.ext (UInt32.ext h)

theorem jsLe_total : ∀ a b : JSStr, jsLe a b = true ∨ jsLe b a = true
  | [], _ => Or.inl rfl
  | _ :: _, [] => Or.inr rfl
  | a :: as, b :: bs => by
    rw [jsLe, jsLe]
    by_cases h1 : a.toNat < b.toNat
    · left; rw [if_pos h1]
    · by_cases h2 : b.toNat < a.toNat
      · right; rw [if_pos h2]
      · rw [if_neg h1, if_neg h2, if_neg h2, if_neg h1]
        exact jsLe_total as bs

theorem jsLe_trans : ∀ {a b c : JSStr}, jsLe a b = true → jsLe b c = true → jsLe a c = true
  | [], _, _, _, _ => rfl
  | _ :: _, [], _, hab, _ => by rw [jsLe] at hab; exact absurd hab (by simp)
  | _ :: _, _ :: _, [], _, hbc => by rw [jsLe] at hbc; exact absurd hbc (by simp)
  | a :: as, b :: bs, c :: cs, hab, hbc => by
    rw [jsLe] at hab hbc ⊢
    split_ifs at hab hbc ⊢ <;>
      first
        | rfl
        | exact jsLe_trans hab hbc
        | (exfalso; omega)

theorem jsLe_antisymm : ∀ {a b : JSStr}, jsLe a b = true → jsLe b a = true → a = b
  | [], [], _, _ => rfl
  | [], _ :: _, _, hba => by rw [jsLe] at hba; exact absurd hba (by simp)
  | _ :: _, [], hab, _ => by rw [jsLe] at hab; exact absurd hab (by simp)
  | a :: as, b :: bs, hab, hba => by
    rw [jsLe] at hab hba
    split_ifs at hab hba <;>
      first
        | (exfalso; omega)
        | exact congrArg₂ (· :: ·)
            (char_toNat_inj (by omega)) (jsLe_antisymm hab hba)

instance : IsTotal JSStr JsLeP := ⟨jsLe_total⟩

instance : IsTrans JSStr JsLeP := ⟨fun _ _ _ => jsLe_trans⟩

instance : IsAntisymm JSStr JsLeP := ⟨fun _ _ => jsLe_antisymm⟩

theorem jsSort_congr {l1 l2 : List JSStr} (h : l1.Perm l2) : jsSort l1 = jsSort l2 :=
  List.eq_of_perm_of_sorted
    ((List.perm_insertionSort JsLeP l1).trans (h.trans (List.perm_insertionSort JsLeP l2).symm))
    (List.sorted_insertionSort JsLeP l1) (List.sorted_insertionSort JsLeP l2)

theorem mergeFold (readF : JSStr → Option JSStr) :
    ∀ (l : List JSStr) (acc : List JSStr),
      l.foldl (fun acc p =>
        match readF p with
        | some c => acc ++ nonBlankLines c
        | none => acc) acc
        = acc ++ (l.map (fun p =>
            match readF p with
            | some c => nonBlankLines c
            | none => [])).flatten
  | [], acc => by simp
  | x :: xs, acc => by
    cases hx : readF x <;> simp [List.foldl_cons, hx, mergeFold readF xs]

/-- C9: the merge output is exactly the non-blank lines of each readable
member file — a file that fails to read is skipped and merging continues —
with files ordered lexicographically by path, lines in in-file order, joined
by single newlines with no trailing separator; and the output is a function
of the set of member paths alone: any two arrival orders of the same paths
merge to byte-identical output. -/
theorem c9_merge (readF : JSStr → Option JSStr) (files l1 l2 : List JSStr) :
    mergeTxtContent readF files =
      List.intercalate ['\n']
        ((jsSort files).map (fun p =>
          match readF p with
          | some c => nonBlankLines c
          | none => [])).flatten ∧
    (l1.Perm l2 → mergeTxtContent readF l1 = mergeTxtContent readF l2) := by
  constructor
  · simp only [mergeTxtContent]
    rw [mergeFold]
    simp
  · intro h
    simp only [mergeTxtContent]
    rw [jsSort_congr h]

theorem c9_merge_witness :
    mergeTxtContent readF0 [jstr "input/000025_18_0002.txt", jstr "input/000025_18_0001.txt"] =
      mergeTxtContent readF0 [jstr "input/000025_18_0001.txt", jstr "input/000025_18_0002.txt"] ∧
    mergeTxtContent readF0 [jstr "input/000025_18_0002.txt", jstr "input/000025_18_0001.txt"] =
      jstr "1 2 3 1.0\n1 2 3 2.0\n4 5 6 3.0" :=
  ⟨(c9_merge readF0 [] [jstr "input/000025_18_0002.txt", jstr "input/000025_18_0001.txt"]
      [jstr "input/000025_18_0001.txt", jstr "input/000025_18_0002.txt"]).2 (by decide),
   by decide⟩

theorem tallyGet_bump : ∀ (m : List (Int × Nat)) (v w : Int),
    tallyGet (bump m v) w = tallyGet m w + (if w = v then 1 else 0)
  | [], v, w => by
    by_cases h : v = w
    · subst h; simp [bump, tallyGet]
    · simp only [bump, tallyGet, if_neg h]
      rw [if_neg (fun hh : w = v => h hh.symm)]
  | (k, n) :: rest, v, w => by
    by_cases hkv : k = v
    · subst hkv
      by_cases hkw : k = w
      · subst hkw
        simp [bump, tallyGet]
      · simp only [bump, tallyGet, if_pos rfl, if_neg hkw]
        rw [if_neg (fun hh : w = k => hkw hh.symm)]
        omega
    · by_cases hkw : k = w
      · subst hkw
        simp [bump, tallyGet, hkv]
      · simp [bump, tallyGet, hkv, hkw, tallyGet_bump rest v w]

theorem tally_fold (v : Int) :
    ∀ (lines : List JSStr) (m : List (Int × Nat)),
      tallyGet (lines.foldl
        (fun m line =>
          match extractSFValue line with
          | some w => bump m w
          | none => m) m) v
        = tallyGet m v + (lines.filterMap extractSFValue).count v
  | [], m => by simp
  | l :: ls, m => by
    cases hl : extractSFValue l with
    | none =>
      simp only [List.foldl_cons, List.filterMap_cons, hl]
      exact tally_fold v ls m
    | some w =>
      simp only [List.foldl_cons, List.filterMap_cons, hl]
      rw [tally_fold v ls (bump m w), tallyGet_bump, List.count_cons]
      simp only [beq_iff_eq]
      split_ifs <;> omega

/-- C10: feature-tally correctness.  The tally assigns to every code the
number of non-blank lines classified to it (conjunct 1); a line with fewer
than four whitespace-separated tokens is never classified (conjunct 2); a
line with at least four tokens is classified exactly when its last token
parses as a decimal number, to that number rounded half-up to an integer
(conjunct 3); and the concrete line `-1.1 -2.2 -3.3 2.000000` contributes
one count to code 2 (conjunct 4). -/
theorem c10_tally (content line : JSStr) (v : Int) :
    tallyGet (countSFValues content) v =
      (((splitNL content).filter (fun l => jsTrim l ≠ [])).filterMap extractSFValue).count v ∧
    ((jsSplitWS (jsTrim line)).length < 4 → extractSFValue line = none) ∧
    (∀ tok, (jsSplitWS (jsTrim line)).getLast? = some tok →
      4 ≤ (jsSplitWS (jsTrim line)).length →
      (jsParseFloat tok = none → extractSFValue line = none) ∧
      (∀ q, jsParseFloat tok = some q → extractSFValue line = some (jsRound q))) ∧
    extractSFValue (jstr "-1.1 -2.2 -3.3 2.000000") = some 2 := by
  refine ⟨?_, ?_, ?_, by decide⟩
  · simp only [countSFValues]
    rw [tally_fold]
    simp [tallyGet]
  · intro h
    simp only [extractSFValue]
    rw [if_neg (by omega)]
  · intro tok hlast hlen
    constructor
    · intro hp
      simp only [extractSFValue, if_pos hlen, hlast, hp]
    · intro q hq
      simp only [extractSFValue, if_pos hlen, hlast, hq]

theorem c10_tally_witness :
    extractSFValue (jstr "1 2 3") = none ∧
    extractSFValue (jstr "-1.1 -2.2 -3.3 abc") = none ∧
    extractSFValue (jstr "-1.1 -2.2 -3.3 2.4") = some (jsRound (24, -1)) :=
  ⟨(c10_tally [] (jstr "1 2 3") 0).2.1 (by decide),
   ((c10_tally [] (jstr "-1.1 -2.2 -3.3 abc") 0).2.2.1 (jstr "abc")
      (by decide) (by decide)).1 (by decide),
   ((c10_tally [] (jstr "-1.1 -2.2 -3.3 2.4") 0).2.2.1 (jstr "2.4")
      (by decide) (by decide)).2 (24, -1) (by decide)⟩
